import Mathlib

/-!
Verification of the Pokemon TCG price-tracker core against its specification.

The Python sources (improved_set_tracker.py, pokemon_tcg_price_tracker.py) are
shallowly embedded below: pure string/array logic is translated to Lean
functions, the HTTP layer is abstracted as a response oracle (an index-to
outcome function), sleeping is modelled by recording the requested delays, and
the unbounded while-loops are given explicit fuel, with fuel exhaustion
returning a distinguished "still running" marker.
-/

set_option autoImplicit false

/-! ## String helpers (structural recursion so kernel evaluation works)

These model the Python primitives used by the tracker: str.lower, the
substring test (sub in s), str.strip, str.split(sep)[0], and
re.split with a one-or-more separator character class. -/

/-- Python str.lower (ASCII case folding, which is all the data uses). -/
def lowerStr (s : String) : String :=
  String.mk (s.data.map Char.toLower)

/-- Does the second list occur at the head of the first? -/
def listIsPref : List Char → List Char → Bool
  | [], _ => true
  | _ :: _, [] => false
  | a :: as, b :: bs => a == b && listIsPref as bs

/-- Helper for the substring test: does ndl occur anywhere in the list? -/
def containsAux (ndl : List Char) : List Char → Bool
  | [] => listIsPref ndl []
  | c :: rest => listIsPref ndl (c :: rest) || containsAux ndl rest

/-- Python membership test sub in s on strings (substring containment). -/
def strContains (s sub : String) : Bool :=
  containsAux sub.data s.data

/-- Characters removed by Python str.strip with no arguments. -/
def isStripChar (c : Char) : Bool :=
  c == ' ' || c == '\t' || c == '\n' || c == '\r' || c == '\x0b' || c == '\x0c'

/-- Python str.strip. -/
def strTrim (s : String) : String :=
  String.mk (((s.data.dropWhile isStripChar).reverse.dropWhile isStripChar).reverse)

/-- The part of target_name.split(sep)[0]: characters before the first
occurrence of sep (the whole string when sep does not occur). -/
def takeUntilSub (ndl : List Char) : List Char → List Char
  | [] => []
  | c :: rest =>
    if listIsPref ndl (c :: rest) then [] else c :: takeUntilSub ndl rest

/-- The separator class of the regex in find_closest_set_name:
hyphen, em-dash, underscore, ampersand, whitespace. -/
def isSepChar (c : Char) : Bool :=
  c == '-' || c == '—' || c == '_' || c == '&' ||
  c == ' ' || c == '\t' || c == '\n' || c == '\r' || c == '\x0b' || c == '\x0c'

/-- Worker for splitSeps. cur is the current token reversed; prevSep records
whether the previous character was a separator (so that a run of separators
produces a single split, as the + quantifier in the regex does). -/
def splitSepsAux : List Char → List Char → Bool → List String
  | [], cur, _ => [String.mk cur.reverse]
  | c :: rest, cur, prevSep =>
    if isSepChar c then
      if prevSep then splitSepsAux rest [] true
      else String.mk cur.reverse :: splitSepsAux rest [] true
    else splitSepsAux rest (c :: cur) false

/-- Python re.split on the separator class with a + quantifier: splits at
maximal separator runs, keeping the empty boundary pieces re.split keeps. -/
def splitSeps (s : String) : List String :=
  splitSepsAux s.data [] false

/-! ## Set Name Resolver (find_closest_set_name, improved_set_tracker.py) -/

/-- Count of target terms that occur among the terms of canonical name s
(the matched_terms sum in the token-overlap tier). -/
def matchedCount (target_terms : List String) (s : String) : Nat :=
  let set_terms := splitSeps (lowerStr s)
  target_terms.countP (fun term => set_terms.contains term)

/-- One step of the token-overlap scan: a candidate displaces the current
best only on a strictly higher matched-term count. -/
def tokenStep (target_terms : List String) (st : Option String × Nat) (s : String) :
    Option String × Nat :=
  let matched_terms := matchedCount target_terms s
  if st.2 < matched_terms then (some s, matched_terms) else st

/-- The Black Star Promos special-case tier of find_closest_set_name. -/
def blackStarMatch (target_name : String) (available_sets : List String) : Option String :=
  if strContains target_name "Black Star Promos" then
    available_sets.find? (fun s =>
      strContains s (strTrim (String.mk (takeUntilSub ("Black Star").data target_name.data))) &&
      strContains s "Black Star Promos")
  else none

/-- find_closest_set_name from improved_set_tracker.py: exact match, then
case-insensitive match, then the Black Star Promos special case, then
case-insensitive substring containment (first match wins), then the
token-overlap scan; None when no tier produces a candidate. -/
def find_closest_set_name (target_name : String) (available_sets : List String) :
    Option String :=
  if target_name ∈ available_sets then some target_name
  else
    match available_sets.find? (fun s => lowerStr s == lowerStr target_name) with
    | some s => some s
    | none =>
      match blackStarMatch target_name available_sets with
      | some s => some s
      | none =>
        match available_sets.filter (fun s => strContains (lowerStr s) (lowerStr target_name)) with
        | m :: _ => some m
        | [] =>
          let target_terms := splitSeps (lowerStr target_name)
          (available_sets.foldl (tokenStep target_terms) (none, 0)).1

/-! ## Resilient Fetcher (safe_api_call, improved_set_tracker.py)

The sequence of outcomes the HTTP layer produces for the successive requests
of one safe_api_call invocation is an oracle indexed by request number.
Sleeping is modelled by appending the requested duration (in seconds, as a
rational) to a trace; the function returns the Python result (response JSON
or None) together with the trace of sleeps, in order. -/

/-- Outcome of one requests.get call: an HTTP response with a status code and
a parsed body, or a transport-level exception. -/
inductive ApiOutcome (J : Type) where
  | resp : Nat → J → ApiOutcome J
  | exn : ApiOutcome J
deriving DecidableEq

/-- Loop body of safe_api_call. fuel is the number of remaining iterations
the while retries <= max_retries condition still allows
(maxRetries + 1 - retries); i indexes the next request in the oracle. -/
def safe_api_call_aux {J : Type} (responses : Nat → ApiOutcome J) (rateDelay : ℚ)
    (maxRetries factor : Nat) : Nat → Nat → Nat → List ℚ → Option J × List ℚ
  | 0, _, _, sleeps => (none, sleeps)
  | fuel + 1, retries, i, sleeps =>
    match responses i with
    | .resp 200 body => (some body, sleeps)
    | .resp 429 _ =>
      safe_api_call_aux responses rateDelay maxRetries factor fuel (retries + 1) (i + 1)
        (sleeps ++ [rateDelay * (factor : ℚ) ^ retries])
    | .resp _ _ => (none, sleeps)
    | .exn =>
      if retries + 1 ≤ maxRetries then
        safe_api_call_aux responses rateDelay maxRetries factor fuel (retries + 1) (i + 1)
          (sleeps ++ [rateDelay * (factor : ℚ) ^ (retries + 1), rateDelay])
      else (none, sleeps)

/-- safe_api_call from improved_set_tracker.py: HTTP 200 returns the body at
once (no sleep); HTTP 429 sleeps rateDelay * factor ^ retries, increments
retries and continues the loop; any other status returns None at once; a
transport exception increments retries and, when retries are left, sleeps the
backoff for the incremented count and then falls through to the
unconditional between-requests sleep of rateDelay; exhausting the while
retries <= max_retries condition returns None. -/
def safe_api_call {J : Type} (responses : Nat → ApiOutcome J) (rateDelay : ℚ)
    (maxRetries factor : Nat) : Option J × List ℚ :=
  safe_api_call_aux responses rateDelay maxRetries factor (maxRetries + 1) 0 0 []

/-! ## Paginators (get_all_set_names and search_cards)

Higher-level fetching goes through safe_api_call, whose result per page is
either None (failure) or a parsed JSON body; the loops are therefore
modelled against a page-indexed oracle of optional responses. A response
body carries an optional data list (the data key may be missing) and the
optional count and totalCount fields. -/

/-- One set record; only the name field (itself optional, as dict.get
returns None when absent) is ever read by the code under verification. -/
structure SetRec where
  name : Option String
deriving DecidableEq

/-- Parsed JSON body of a /sets page. -/
structure SetsResp where
  dataField : Option (List SetRec)
  count : Option Nat
  totalCount : Option Nat
deriving DecidableEq

/-- Return value of get_all_set_names: the Python function returns either the
single empty list (failure at page 1) or the pair (set_names, all_sets). -/
inductive SetsResult where
  | emptyList : SetsResult
  | pair : List (Option String) → List SetRec → SetsResult
deriving DecidableEq

/-- Loop of get_all_set_names. Returns (some result, requestsIssued) when the
loop finishes within fuel iterations, and (none, requestsIssued) when fuel is
exhausted with the loop still running (the Python loop has no iteration
bound). -/
def get_all_set_names_aux (fetch : Nat → Option SetsResp) :
    Nat → Nat → List SetRec → Nat → Option SetsResult × Nat
  | 0, _, _, reqs => (none, reqs)
  | fuel + 1, page, all_sets, reqs =>
    match fetch page with
    | none =>
      if page = 1 then (some .emptyList, reqs + 1)
      else (some (.pair (all_sets.map SetRec.name) all_sets), reqs + 1)
    | some response_data =>
      match response_data.dataField with
      | none =>
        if page = 1 then (some .emptyList, reqs + 1)
        else (some (.pair (all_sets.map SetRec.name) all_sets), reqs + 1)
      | some sets_data =>
        if sets_data.isEmpty then
          (some (.pair (all_sets.map SetRec.name) all_sets), reqs + 1)
        else
          match response_data.count, response_data.totalCount with
          | some c, some t =>
            if t ≤ c * page then
              (some (.pair (((all_sets ++ sets_data).map SetRec.name)) (all_sets ++ sets_data)),
                reqs + 1)
            else get_all_set_names_aux fetch fuel (page + 1) (all_sets ++ sets_data) (reqs + 1)
          | _, _ => get_all_set_names_aux fetch fuel (page + 1) (all_sets ++ sets_data) (reqs + 1)

/-- get_all_set_names from improved_set_tracker.py, against a page oracle:
page counter starts at 1; a failed or data-less response returns [] at page 1
and ends pagination at later pages; an empty data list ends pagination; when
both count and totalCount are present and count * page >= totalCount the loop
ends; otherwise the page counter is incremented. On every exit the function
returns the pair of the extracted name list and the accumulated records. -/
def get_all_set_names (fetch : Nat → Option SetsResp) (fuel : Nat) :
    Option SetsResult × Nat :=
  get_all_set_names_aux fetch fuel 1 [] 0

/-- Parsed JSON body of a /cards search page, with record type α. -/
structure CardsResp (α : Type) where
  dataField : Option (List α)
  count : Option Nat
  totalCount : Option Nat

/-- Loop of search_cards. fuel is maxPages + 1 - page, the number of
iterations the while page <= max_pages condition still allows; the second
component counts requests issued. -/
def search_cards_aux {α : Type} (fetch : Nat → Option (CardsResp α)) (maxPages : Nat) :
    Nat → Nat → List α → Nat → List α × Nat
  | 0, _, all_cards, reqs => (all_cards, reqs)
  | fuel + 1, page, all_cards, reqs =>
    if maxPages < page then (all_cards, reqs)
    else
      match fetch page with
      | none => (all_cards, reqs + 1)
      | some response_data =>
        match response_data.dataField with
        | none => (all_cards, reqs + 1)
        | some page_cards =>
          if page_cards.isEmpty then (all_cards, reqs + 1)
          else
            match response_data.count, response_data.totalCount with
            | some _, some t =>
              if page_cards.isEmpty = false ∧ t ≤ (all_cards ++ page_cards).length then
                (all_cards ++ page_cards, reqs + 1)
              else
                search_cards_aux fetch maxPages fuel (page + 1) (all_cards ++ page_cards)
                  (reqs + 1)
            | _, _ =>
              search_cards_aux fetch maxPages fuel (page + 1) (all_cards ++ page_cards)
                (reqs + 1)

/-- search_cards from improved_set_tracker.py, against a page oracle: page
counter starts at 1 and the loop runs while page <= maxPages; a failed,
data-less or empty page ends pagination; when count and totalCount are
present and the page is non-empty and the accumulated length has reached
totalCount the loop ends; otherwise the page counter is incremented. -/
def search_cards {α : Type} (fetch : Nat → Option (CardsResp α)) (maxPages : Nat) :
    List α × Nat :=
  search_cards_aux fetch maxPages (maxPages + 1) 1 [] 0

/-! ## Price extraction

Two extraction modes exist in the sources. The set-tracking path
(track_multiple_sets_to_csv) keeps only the market field of each condition
block; the single-card path (save_price_data) keeps every non-null
price-type field. A condition's value in the prices object may fail the
isinstance(prices, dict) test, and a price field may hold null, so fields
are Option-valued; V is the type of non-null JSON price values. -/

/-- Value of one condition key in the prices object: either not a dict, or a
dict from price-type keys to nullable price values. -/
inductive PBlock (V : Type) where
  | notDict : PBlock V
  | dict : List (String × Option V) → PBlock V
deriving DecidableEq

/-- Key lookup in an embedded JSON dict (first binding wins, as in a dict). -/
def dictLookup {V : Type} (key : String) : List (String × Option V) → Option (Option V)
  | [] => none
  | (k, v) :: rest => if k = key then some v else dictLookup key rest

/-- A flattened market-price row of track_multiple_sets_to_csv; only the
fields the verified claims mention are kept. -/
structure PriceEntryM (V : Type) where
  condition : String
  price : Option V
deriving DecidableEq

/-- A flattened row of save_price_data (all price types kept). -/
structure PriceEntryA (V : Type) where
  condition : String
  price_type : String
  price : Option V
deriving DecidableEq

/-- The market-only flattening loop of track_multiple_sets_to_csv: for each
condition whose value is a dict containing a market key with a non-null
value, emit one row holding that market value. -/
def extractMarketOnly {V : Type} : List (String × PBlock V) → List (PriceEntryM V)
  | [] => []
  | (condition, blk) :: rest =>
    match blk with
    | .notDict => extractMarketOnly rest
    | .dict fields =>
      match dictLookup "market" fields with
      | some (some v) => { condition := condition, price := some v } :: extractMarketOnly rest
      | _ => extractMarketOnly rest

/-- The inner loop of save_price_data over one condition's dict: every
price-type field with a non-null value yields one row. -/
def flattenFields {V : Type} (condition : String) :
    List (String × Option V) → List (PriceEntryA V)
  | [] => []
  | (price_type, pv) :: rest =>
    match pv with
    | some v =>
      { condition := condition, price_type := price_type, price := some v } ::
        flattenFields condition rest
    | none => flattenFields condition rest

/-- The all-price-types flattening loop of save_price_data
(pokemon_tcg_price_tracker.py). -/
def savePriceFlatten {V : Type} : List (String × PBlock V) → List (PriceEntryA V)
  | [] => []
  | (condition, blk) :: rest =>
    match blk with
    | .notDict => savePriceFlatten rest
    | .dict fields => flattenFields condition fields ++ savePriceFlatten rest

/-! ## CSV sort key (track_multiple_sets_to_csv) -/

/-- Numeric digit run to a natural number. -/
def digitsToNat (l : List Char) : Nat :=
  l.foldl (fun n c => n * 10 + (c.toNat - ('0').toNat)) 0

/-- First maximal digit run of the string, as re.search(r'(\d+)') finds it;
none when the string has no digit. -/
def firstDigitRun : List Char → Option Nat
  | [] => none
  | c :: rest =>
    if c.isDigit then some (digitsToNat ((c :: rest).takeWhile Char.isDigit))
    else firstDigitRun rest

/-- extract_number from track_multiple_sets_to_csv: the first digit run of
the card number, with none standing for float('inf') (no digit at all). -/
def extract_number (num_str : String) : Option Nat :=
  firstDigitRun num_str.data

/-- First maximal ASCII-letter run of the string, as re.search(r'([a-zA-Z]+)')
finds it; empty when there is none. -/
def firstAlphaRun : List Char → String
  | [] => ""
  | c :: rest =>
    if c.isAlpha then String.mk ((c :: rest).takeWhile Char.isAlpha)
    else firstAlphaRun rest

/-- extract_letter from track_multiple_sets_to_csv. -/
def extract_letter (num_str : String) : String :=
  firstAlphaRun num_str.data

/-- Strict order on numeric parts, with none playing float('inf'). -/
def optNatLtB : Option Nat → Option Nat → Bool
  | some a, some b => a < b
  | some _, none => true
  | none, _ => false

/-- Strict lexicographic order on character lists (Python string order,
restricted to the ASCII data in play). -/
def charListLtB : List Char → List Char → Bool
  | [], [] => false
  | [], _ :: _ => true
  | _ :: _, [] => false
  | a :: as, b :: bs => a < b || (a == b && charListLtB as bs)

/-- Strict string order for the sort comparator. -/
def strLtB (a b : String) : Bool :=
  charListLtB a.data b.data

/-- One row of the CSV as far as the sort is concerned; name and rarity never
influence the ordering and are omitted. -/
structure CsvRow where
  set : String
  number : String
  condition : String
deriving DecidableEq

/-- The sort_values key of track_multiple_sets_to_csv: by set, then the
numeric part of the number (none last), then the letter part, then the
condition, each ascending. -/
def rowKeyLe (r1 r2 : CsvRow) : Bool :=
  if r1.set ≠ r2.set then strLtB r1.set r2.set
  else if extract_number r1.number ≠ extract_number r2.number then
    optNatLtB (extract_number r1.number) (extract_number r2.number)
  else if extract_letter r1.number ≠ extract_letter r2.number then
    strLtB (extract_letter r1.number) (extract_letter r2.number)
  else !strLtB r2.condition r1.condition

/-- Stable insertion into a sorted list. -/
def insertRow {α : Type} (le : α → α → Bool) (x : α) : List α → List α
  | [] => [x]
  | y :: ys => if le x y then x :: y :: ys else y :: insertRow le x ys

/-- Sort of the data-frame rows under a total comparator; for the pairwise
distinct keys of the claims this agrees with any sorting algorithm. -/
def sortRows {α : Type} (le : α → α → Bool) : List α → List α
  | [] => []
  | x :: xs => insertRow le x (sortRows le xs)

/-! ## Concrete oracles used by the claim theorems -/

/-- Response oracle answering HTTP 429 to the first three requests and
HTTP 200 afterwards. -/
def threeRateLimited : Nat → ApiOutcome Unit :=
  fun i => if i < 3 then ApiOutcome.resp 429 () else ApiOutcome.resp 200 ()

/-- Response oracle answering HTTP 429 to every request. -/
def allRateLimited : Nat → ApiOutcome Unit :=
  fun _ => ApiOutcome.resp 429 ()

/-- Response oracle answering HTTP 200 to every request. -/
def allOk : Nat → ApiOutcome Unit :=
  fun _ => ApiOutcome.resp 200 ()

/-- Response oracle answering HTTP 429 once and HTTP 200 afterwards. -/
def oneRateLimitedThenOk : Nat → ApiOutcome Unit :=
  fun i => if i = 0 then ApiOutcome.resp 429 () else ApiOutcome.resp 200 ()

/-- One canonical set record used by the pagination mocks. -/
def mockSetRec : SetRec := { name := some "S" }

/-- Sets-listing oracle: every page carries 250 records, count 250 and
totalCount 500 (the mocked fetch of the pagination-completion property). -/
def mockSetsFetch : Nat → Option SetsResp :=
  fun _ => some { dataField := some (List.replicate 250 mockSetRec),
                  count := some 250, totalCount := some 500 }

/-- Card-search oracle with the same 250-per-page, totalCount 500 shape. -/
def mockCardsFetch : Nat → Option (CardsResp Unit) :=
  fun _ => some { dataField := some (List.replicate 250 ()),
                  count := some 250, totalCount := some 500 }

/-- Misbehaving sets-listing oracle: every page is non-empty but carries no
count or totalCount field, so no completion test ever fires. -/
def advSetsFetch : Nat → Option SetsResp :=
  fun _ => some { dataField := some [mockSetRec], count := none, totalCount := none }

/-- Sets-listing oracle whose every fetch fails. -/
def failSetsFetch : Nat → Option SetsResp :=
  fun _ => none

/-- The page-1 failure condition of get_all_set_names: the fetch returned
None, or the body has no data key (stated as: any body it did return has no
data key). -/
def page1Unusable (fetch : Nat → Option SetsResp) : Prop :=
  ∀ resp, fetch 1 = some resp → resp.dataField = none

/-- The three ways the sets-listing loop can stop at a page: the fetch fails
or the body has no data key, the data list is empty, or both count and
totalCount are present with count * page >= totalCount. -/
def setsStopCond (fetch : Nat → Option SetsResp) (page : Nat) : Prop :=
  match fetch page with
  | none => True
  | some r =>
    match r.dataField with
    | none => True
    | some d => d.isEmpty = true ∨ ∃ c t, r.count = some c ∧ r.totalCount = some t ∧ t ≤ c * page

/-- The four rows of the sort-ordering property, all in one set and
condition so only the card number influences the order. -/
def claim3Rows : List CsvRow :=
  ["9", "10", "TG1", "2"].map (fun n => CsvRow.mk "S" n "holofoil")

/-! ## Claims -/

/-- C1, counterexample: with baseDelay 1.0 and backoff_factor 2, three
consecutive HTTP 429 responses make safe_api_call sleep 1.0, 2.0 and 4.0
seconds, not the 2.0, 4.0 and 8.0 the claim states: the code computes the
wait from the retry counter before incrementing it. -/
theorem claim1_schedule_counterexample :
    (safe_api_call threeRateLimited 1 3 2).2 = [1, 2, 4] ∧
      (safe_api_call threeRateLimited 1 3 2).2 ≠ [2, 4, 8] := by
  norm_num [safe_api_call, safe_api_call_aux, threeRateLimited]

/-- C1, amended: with baseDelay 1.0 and backoff_factor 2, three consecutive
HTTP 429 responses produce backoff waits of 1.0, 2.0 and 4.0 seconds in that
order (wait = baseDelay * factor ^ retries with retries counting from 0),
before either success (a fourth response of 200) or retry exhaustion (a
fourth 429, which adds a final 8.0-second wait before failure). -/
theorem claim1_backoff_schedule_amended :
    safe_api_call threeRateLimited 1 3 2 = (some (), [1, 2, 4]) ∧
      safe_api_call allRateLimited 1 3 2 = ((none : Option Unit), [1, 2, 4, 8]) := by
  norm_num [safe_api_call, safe_api_call_aux, threeRateLimited, allRateLimited]

/-- C2: contrary to the claim (and to the comment in the source saying the
between-requests delay is always added), a successful HTTP 200 response
makes safe_api_call return at once with no sleep at all: an all-200 oracle
produces an empty sleep trace, and even a 429-then-200 run sleeps only the
backoff wait, never an additional fixed rate-limit delay. -/
theorem claim2_no_sleep_after_success :
    safe_api_call allOk 1 3 2 = (some (), []) ∧
      (safe_api_call oneRateLimitedThenOk 1 3 2).2 = [1] := by
  norm_num [safe_api_call, safe_api_call_aux, allOk, oneRateLimitedThenOk]

/-- C3, counterexample: under the sort of track_multiple_sets_to_csv the
numbers ["9", "10", "TG1", "2"] order as ["TG1", "2", "9", "10"], not as
["2", "9", "10", "TG1"]: extract_number finds the digit run "1" inside
"TG1", so "TG1" gets numeric part 1 and sorts first rather than last. -/
theorem claim3_sort_counterexample :
    (sortRows rowKeyLe claim3Rows).map CsvRow.number ≠ ["2", "9", "10", "TG1"] ∧
      (sortRows rowKeyLe claim3Rows).map CsvRow.number = ["TG1", "2", "9", "10"] := by
  decide

/-- C3, amended: the sort key orders by the first digit run of the number
ascending, with only digit-free numbers last: ["9", "10", "TG1", "2"] sorts
as ["TG1", "2", "9", "10"] (numeric parts 1, 2, 9, 10), while a digit-free
entry such as "XY" does sort last. -/
theorem claim3_sort_amended :
    (sortRows rowKeyLe claim3Rows).map CsvRow.number = ["TG1", "2", "9", "10"] ∧
      (sortRows rowKeyLe (["9", "10", "XY", "2"].map (fun n => CsvRow.mk "S" n "holofoil"))).map
        CsvRow.number = ["2", "9", "10", "XY"] := by
  decide

/-- C4: whenever targetName is literally an element of canonicalNames, the
resolver returns exactly targetName: the exact-match tier runs first and
short-circuits every other tier. -/
theorem claim4_exact_match_tier (target_name : String) (available_sets : List String)
    (h : target_name ∈ available_sets) :
    find_closest_set_name target_name available_sets = some target_name := by
  simp [find_closest_set_name, h]

/-- C4 witness: "Base Set" is returned exactly even though the
case-insensitive alternative "base set" comes first in the list. -/
theorem claim4_exact_match_tier_witness :
    find_closest_set_name "Base Set" ["base set", "Base Set"] = some "Base Set" :=
  claim4_exact_match_tier "Base Set" ["base set", "Base Set"] (by decide)

/-- C6: substring and token-overlap ties keep the first canonical name in
list order: resolving "Rocket" against ["Team Rocket", "Rocket Gang"] gives
"Team Rocket", and one step of the token-overlap scan leaves the current
best candidate unchanged unless the new count is strictly higher. -/
theorem claim6_tie_break :
    find_closest_set_name "Rocket" ["Team Rocket", "Rocket Gang"] = some "Team Rocket" ∧
      ∀ (target_terms : List String) (st : Option String × Nat) (s : String),
        matchedCount target_terms s ≤ st.2 → tokenStep target_terms st s = st := by
  refine ⟨by decide, ?_⟩
  intro target_terms st s h
  have hnot : ¬ st.2 < matchedCount target_terms s := Nat.not_lt.mpr h
  simp [tokenStep, hnot]

/-- C6 witness: a candidate tying the current best count of 1 does not
displace it. -/
theorem claim6_tie_break_witness :
    tokenStep ["rocket"] (some "Team Rocket", 1) "Rocket Gang" = (some "Team Rocket", 1) :=
  claim6_tie_break.2 ["rocket"] (some "Team Rocket", 1) "Rocket Gang" (by decide)

/-- Any result of the Black Star Promos tier is one of the canonical names. -/
theorem blackStarMatch_mem {target_name s : String} {available_sets : List String}
    (h : blackStarMatch target_name available_sets = some s) : s ∈ available_sets := by
  unfold blackStarMatch at h
  split at h
  · exact List.mem_of_find?_eq_some h
  · exact absurd h (by simp)

/-- The token-overlap scan only ever selects scanned candidates: if the
initial state already satisfies a membership bound and every scanned name is
in L, so is any name the final state holds. -/
theorem foldl_tokenStep_mem (target_terms : List String) (L : List String) :
    ∀ (l : List String) (st : Option String × Nat),
      (∀ x, st.1 = some x → x ∈ L) → (∀ s ∈ l, s ∈ L) →
      ∀ x, (l.foldl (tokenStep target_terms) st).1 = some x → x ∈ L := by
  intro l
  induction l with
  | nil => intro st hst _ x hx; exact hst x hx
  | cons s rest ih =>
    intro st hst hl x hx
    refine ih (tokenStep target_terms st s) ?_
      (fun y hy => hl y (List.mem_cons_of_mem _ hy)) x (by simpa using hx)
    intro y hy
    by_cases hlt : st.2 < matchedCount target_terms s
    · simp [tokenStep, hlt] at hy
      exact hy ▸ hl s (List.mem_cons_self s rest)
    · simp [tokenStep, hlt] at hy
      exact hst y hy

/-- Every name the resolver returns is one of the canonical names. -/
theorem find_closest_set_name_mem (target_name : String) (available_sets : List String) :
    ∀ x, find_closest_set_name target_name available_sets = some x → x ∈ available_sets := by
  intro x hx
  unfold find_closest_set_name at hx
  split at hx
  · next hmem => exact (Option.some.inj hx) ▸ hmem
  · split at hx
    · next s hfind => exact (Option.some.inj hx) ▸ List.mem_of_find?_eq_some hfind
    · split at hx
      · next s hbs => exact (Option.some.inj hx) ▸ blackStarMatch_mem hbs
      · split at hx
        · next m rest hfilter =>
          have hm : m ∈ available_sets.filter
              (fun s => strContains (lowerStr s) (lowerStr target_name)) := by
            rw [hfilter]; exact List.mem_cons_self m rest
          exact (Option.some.inj hx) ▸ List.mem_of_mem_filter hm
        · exact foldl_tokenStep_mem (splitSeps (lowerStr target_name)) available_sets
            available_sets (none, 0) (by simp) (fun s hs => hs) x (by simpa using hx)

/-- C5: the resolver is total and closed over its input list: for any
targetName and non-empty canonicalNames the (exception-free) result is
either the explicit no-match value none or an element of canonicalNames. -/
theorem claim5_resolver_totality (target_name : String) (available_sets : List String)
    (_h : available_sets ≠ []) :
    find_closest_set_name target_name available_sets = none ∨
      ∃ s ∈ available_sets, find_closest_set_name target_name available_sets = some s := by
  cases hr : find_closest_set_name target_name available_sets with
  | none => exact Or.inl rfl
  | some s =>
    exact Or.inr ⟨s, find_closest_set_name_mem target_name available_sets s hr, rfl⟩

/-- C5 witness at a concrete non-empty list where the resolver matches. -/
theorem claim5_resolver_totality_witness :
    (["Jungle", "Fossil"] : List String) ≠ [] ∧
      (find_closest_set_name "Team Rocket" ["Jungle", "Fossil"] = none ∨
        ∃ s ∈ ["Jungle", "Fossil"],
          find_closest_set_name "Team Rocket" ["Jungle", "Fossil"] = some s) :=
  ⟨by decide, claim5_resolver_totality "Team Rocket" ["Jungle", "Fossil"] (by decide)⟩

set_option maxRecDepth 10000 in
/-- C7: against the mocked oracle (totalCount 500, 250 records per page,
count 250) both pagination loops issue exactly 2 page requests and
accumulate exactly 500 records: the sets loop stops because
count * page = 500 >= totalCount at page 2, the card loop because its
accumulated length reaches totalCount at page 2. -/
theorem claim7_pagination_completion :
    get_all_set_names mockSetsFetch 10 =
        (some (SetsResult.pair (List.replicate 500 (some "S")) (List.replicate 500 mockSetRec)),
          2) ∧
      search_cards mockCardsFetch 10 = (List.replicate 500 (), 2) := by
  exact ⟨rfl, rfl⟩

/-- The card-search loop issues at most one request per page the while
page <= maxPages condition still allows. -/
theorem search_cards_aux_reqs_le {α : Type} (fetch : Nat → Option (CardsResp α))
    (maxPages : Nat) :
    ∀ (fuel page : Nat) (acc : List α) (reqs : Nat),
      (search_cards_aux fetch maxPages fuel page acc reqs).2 ≤ reqs + (maxPages + 1 - page) := by
  intro fuel
  induction fuel with
  | zero => intro page acc reqs; simp [search_cards_aux]
  | succ n ih =>
    intro page acc reqs
    simp only [search_cards_aux]
    split
    · simp
    · split
      · simp; omega
      · split
        · simp; omega
        · split
          · simp; omega
          · split
            · split
              · simp; omega
              · exact le_trans (ih (page + 1) _ (reqs + 1)) (by omega)
            · exact le_trans (ih (page + 1) _ (reqs + 1)) (by omega)

/-- Against the misbehaving oracle that always produces a non-empty page
with no count fields, the sets-listing loop never finishes: with any fuel n
it issues exactly n requests and is still running. -/
theorem get_all_set_names_aux_adv :
    ∀ (fuel page : Nat) (acc : List SetRec) (reqs : Nat),
      get_all_set_names_aux advSetsFetch fuel page acc reqs = (none, reqs + fuel) := by
  intro fuel
  induction fuel with
  | zero => intro page acc reqs; simp [get_all_set_names_aux]
  | succ n ih =>
    intro page acc reqs
    have hstep : get_all_set_names_aux advSetsFetch (n + 1) page acc reqs =
        get_all_set_names_aux advSetsFetch n (page + 1) (acc ++ [mockSetRec]) (reqs + 1) := by
      simp [get_all_set_names_aux, advSetsFetch]
    have harith : reqs + 1 + n = reqs + (n + 1) := by omega
    rw [hstep, ih (page + 1) (acc ++ [mockSetRec]) (reqs + 1), harith]

/-- Whenever the sets-listing loop finishes, some page at or after the
current one satisfied one of its three stop conditions. -/
theorem get_all_set_names_aux_stop (fetch : Nat → Option SetsResp) :
    ∀ (fuel page : Nat) (acc : List SetRec) (reqs : Nat) (r : SetsResult) (n : Nat),
      get_all_set_names_aux fetch fuel page acc reqs = (some r, n) →
      ∃ p, page ≤ p ∧ setsStopCond fetch p := by
  intro fuel
  induction fuel with
  | zero => intro page acc reqs r n h; simp [get_all_set_names_aux] at h
  | succ m ih =>
    intro page acc reqs r n h
    simp only [get_all_set_names_aux] at h
    split at h
    · next hf => exact ⟨page, le_refl page, by simp [setsStopCond, hf]⟩
    · next resp hf =>
      split at h
      · next hd => exact ⟨page, le_refl page, by simp [setsStopCond, hf, hd]⟩
      · next d hd =>
        split at h
        · next he =>
          refine ⟨page, le_refl page, ?_⟩
          simp only [setsStopCond, hf, hd]
          exact Or.inl he
        · next he =>
          split at h
          · next c t hc ht =>
            split at h
            · next hle =>
              refine ⟨page, le_refl page, ?_⟩
              simp only [setsStopCond, hf, hd]
              exact Or.inr ⟨c, t, hc, ht, hle⟩
            · next hnle =>
              obtain ⟨p, hp1, hp2⟩ := ih (page + 1) (acc ++ d) (reqs + 1) r n h
              exact ⟨p, by omega, hp2⟩
          · next x y hxy =>
            obtain ⟨p, hp1, hp2⟩ := ih (page + 1) (acc ++ d) (reqs + 1) r n h
            exact ⟨p, by omega, hp2⟩

/-- C8: card-search pagination is bounded while sets-listing pagination is
not: for every oracle, search_cards with its default ceiling of 10 issues at
most 10 page requests (and, being a total function, terminates); the
sets-listing loop, against an always-non-empty oracle without count fields,
is still running after n requests for every n, and whenever it does finish
some page satisfied its totalCount test, was empty or unusable, or failed. -/
theorem claim8_pagination_bounds :
    (∀ (α : Type) (fetch : Nat → Option (CardsResp α)), (search_cards fetch 10).2 ≤ 10) ∧
      (∀ n : Nat, get_all_set_names advSetsFetch n = (none, n)) ∧
      (∀ (fetch : Nat → Option SetsResp) (fuel : Nat) (r : SetsResult) (n : Nat),
        get_all_set_names fetch fuel = (some r, n) → ∃ p, 1 ≤ p ∧ setsStopCond fetch p) := by
  refine ⟨?_, ?_, ?_⟩
  · intro α fetch
    have hb := search_cards_aux_reqs_le fetch 10 11 1 [] 0
    simpa [search_cards] using hb
  · intro n
    have ha := get_all_set_names_aux_adv n 1 [] 0
    simpa [get_all_set_names] using ha
  · intro fetch fuel r n h
    exact get_all_set_names_aux_stop fetch fuel 1 [] 0 r n h

/-- C8 witness: concrete instances of all three parts, the stop-cause part
at an oracle whose first fetch fails. -/
theorem claim8_pagination_bounds_witness :
    (search_cards (fun _ => (none : Option (CardsResp Unit))) 10).2 ≤ 10 ∧
      get_all_set_names advSetsFetch 5 = (none, 5) ∧
      (∃ p, 1 ≤ p ∧ setsStopCond failSetsFetch p) :=
  ⟨claim8_pagination_bounds.1 Unit (fun _ => none),
   claim8_pagination_bounds.2.1 5,
   claim8_pagination_bounds.2.2 failSetsFetch 1 SetsResult.emptyList 1 rfl⟩

/-- Every row of the all-price-types inner loop has a non-null price. -/
theorem flattenFields_price_ne_none {V : Type} (condition : String) :
    ∀ (fields : List (String × Option V)) (e : PriceEntryA V),
      e ∈ flattenFields condition fields → e.price ≠ none := by
  intro fields
  induction fields with
  | nil => intro e h; simp [flattenFields] at h
  | cons f rest ih =>
    intro e h
    obtain ⟨price_type, pv⟩ := f
    cases pv with
    | some v =>
      simp only [flattenFields] at h
      rcases List.mem_cons.mp h with rfl | hmem
      · simp
      · exact ih e hmem
    | none => exact ih e (by simpa [flattenFields] using h)

/-- Every row the market-only extraction produces has a non-null price. -/
theorem extractMarketOnly_price_ne_none {V : Type} :
    ∀ (prices : List (String × PBlock V)) (e : PriceEntryM V),
      e ∈ extractMarketOnly prices → e.price ≠ none := by
  intro prices
  induction prices with
  | nil => intro e h; simp [extractMarketOnly] at h
  | cons p rest ih =>
    intro e h
    obtain ⟨condition, blk⟩ := p
    cases blk with
    | notDict => exact ih e (by simpa [extractMarketOnly] using h)
    | dict fields =>
      simp only [extractMarketOnly] at h
      split at h
      · next v hlk =>
        rcases List.mem_cons.mp h with rfl | hmem
        · simp
        · exact ih e hmem
      · exact ih e h

/-- Every row the all-price-types extraction produces has a non-null
price. -/
theorem savePriceFlatten_price_ne_none {V : Type} :
    ∀ (prices : List (String × PBlock V)) (e : PriceEntryA V),
      e ∈ savePriceFlatten prices → e.price ≠ none := by
  intro prices
  induction prices with
  | nil => intro e h; simp [savePriceFlatten] at h
  | cons p rest ih =>
    intro e h
    obtain ⟨condition, blk⟩ := p
    cases blk with
    | notDict => exact ih e (by simpa [savePriceFlatten] using h)
    | dict fields =>
      simp only [savePriceFlatten] at h
      rcases List.mem_append.mp h with hmem | hmem
      · exact flattenFields_price_ne_none condition fields e hmem
      · exact ih e hmem

/-- C9: every stored price entry has a non-null price, in both extraction
modes, and a condition block whose market value is null yields zero entries
in the market-only mode even when other price types are present. -/
theorem claim9_nonnull_price :
    (∀ (V : Type) (prices : List (String × PBlock V)) (e : PriceEntryM V),
        e ∈ extractMarketOnly prices → e.price ≠ none) ∧
      (∀ (V : Type) (prices : List (String × PBlock V)) (e : PriceEntryA V),
        e ∈ savePriceFlatten prices → e.price ≠ none) ∧
      extractMarketOnly
          [("holofoil", PBlock.dict [("market", (none : Option Int)), ("low", some 5)])] =
        [] :=
  ⟨fun _ prices e h => extractMarketOnly_price_ne_none prices e h,
   fun _ prices e h => savePriceFlatten_price_ne_none prices e h,
   rfl⟩

/-- C9 witness: concrete produced entries of each mode have non-null
prices. -/
theorem claim9_nonnull_price_witness :
    ({ condition := "holofoil", price := some 3 } : PriceEntryM Int).price ≠ none ∧
      ({ condition := "holofoil", price_type := "low", price := some 3 } :
          PriceEntryA Int).price ≠ none :=
  ⟨claim9_nonnull_price.1 Int [("holofoil", PBlock.dict [("market", some 3)])] _ (by decide),
   claim9_nonnull_price.2.1 Int [("holofoil", PBlock.dict [("low", some 3)])] _ (by decide)⟩

/-- Results of the pair shape always carry the name projection of their
record list. -/
theorem pair_names_of_map (X : List SetRec) :
    ∀ ns ss, SetsResult.pair (X.map SetRec.name) X = SetsResult.pair ns ss →
      ns = ss.map SetRec.name := by
  intro ns ss h
  injection h with h1 h2
  rw [← h1, ← h2]

/-- Whatever the oracle, a pair returned by the sets loop pairs each record
with exactly its name entry. -/
theorem get_all_set_names_aux_pair_names (fetch : Nat → Option SetsResp) :
    ∀ (fuel page : Nat) (acc : List SetRec) (reqs : Nat) (r : SetsResult) (n : Nat),
      get_all_set_names_aux fetch fuel page acc reqs = (some r, n) →
      ∀ ns ss, r = SetsResult.pair ns ss → ns = ss.map SetRec.name := by
  intro fuel
  induction fuel with
  | zero => intro page acc reqs r n h; simp [get_all_set_names_aux] at h
  | succ m ih =>
    intro page acc reqs r n h
    simp only [get_all_set_names_aux] at h
    split at h
    · next hf =>
      split at h
      · next hpage =>
        have hr1 : SetsResult.emptyList = r := Option.some.inj (congrArg Prod.fst h)
        exact fun ns ss hr => SetsResult.noConfusion (hr1.trans hr)
      · next hpage =>
        have hr1 : SetsResult.pair (acc.map SetRec.name) acc = r :=
          Option.some.inj (congrArg Prod.fst h)
        exact fun ns ss hr => pair_names_of_map acc ns ss (hr1.trans hr)
    · next resp hf =>
      split at h
      · next hd =>
        split at h
        · next hpage =>
          have hr1 : SetsResult.emptyList = r := Option.some.inj (congrArg Prod.fst h)
          exact fun ns ss hr => SetsResult.noConfusion (hr1.trans hr)
        · next hpage =>
          have hr1 : SetsResult.pair (acc.map SetRec.name) acc = r :=
            Option.some.inj (congrArg Prod.fst h)
          exact fun ns ss hr => pair_names_of_map acc ns ss (hr1.trans hr)
      · next d hd =>
        split at h
        · next he =>
          have hr1 : SetsResult.pair (acc.map SetRec.name) acc = r :=
            Option.some.inj (congrArg Prod.fst h)
          exact fun ns ss hr => pair_names_of_map acc ns ss (hr1.trans hr)
        · next he =>
          split at h
          · next c t hc ht =>
            split at h
            · next hle =>
              have hr1 : SetsResult.pair ((acc ++ d).map SetRec.name) (acc ++ d) = r :=
                Option.some.inj (congrArg Prod.fst h)
              exact fun ns ss hr => pair_names_of_map (acc ++ d) ns ss (hr1.trans hr)
            · next hnle => exact ih (page + 1) (acc ++ d) (reqs + 1) r n h
          · next x y hxy => exact ih (page + 1) (acc ++ d) (reqs + 1) r n h

/-- From page 2 on the sets loop can no longer return the bare empty
list. -/
theorem get_all_set_names_aux_no_empty (fetch : Nat → Option SetsResp) :
    ∀ (fuel page : Nat) (acc : List SetRec) (reqs : Nat) (r : SetsResult) (n : Nat),
      2 ≤ page → get_all_set_names_aux fetch fuel page acc reqs = (some r, n) →
      r ≠ SetsResult.emptyList := by
  intro fuel
  induction fuel with
  | zero => intro page acc reqs r n hp h; simp [get_all_set_names_aux] at h
  | succ m ih =>
    intro page acc reqs r n hp h
    simp only [get_all_set_names_aux] at h
    split at h
    · next hf =>
      split at h
      · next hpage => exact absurd hpage (by omega)
      · next hpage =>
        have hr1 : SetsResult.pair (acc.map SetRec.name) acc = r :=
          Option.some.inj (congrArg Prod.fst h)
        exact fun hr => SetsResult.noConfusion (hr1.trans hr)
    · next resp hf =>
      split at h
      · next hd =>
        split at h
        · next hpage => exact absurd hpage (by omega)
        · next hpage =>
          have hr1 : SetsResult.pair (acc.map SetRec.name) acc = r :=
            Option.some.inj (congrArg Prod.fst h)
          exact fun hr => SetsResult.noConfusion (hr1.trans hr)
      · next d hd =>
        split at h
        · next he =>
          have hr1 : SetsResult.pair (acc.map SetRec.name) acc = r :=
            Option.some.inj (congrArg Prod.fst h)
          exact fun hr => SetsResult.noConfusion (hr1.trans hr)
        · next he =>
          split at h
          · next c t hc ht =>
            split at h
            · next hle =>
              have hr1 : SetsResult.pair ((acc ++ d).map SetRec.name) (acc ++ d) = r :=
                Option.some.inj (congrArg Prod.fst h)
              exact fun hr => SetsResult.noConfusion (hr1.trans hr)
            · next hnle => exact ih (page + 1) (acc ++ d) (reqs + 1) r n (by omega) h
          · next x y hxy => exact ih (page + 1) (acc ++ d) (reqs + 1) r n (by omega) h

/-- C10: when the sets loop finishes, its result is the bare empty list
exactly when page 1 yielded no usable data, and on every successful path it
is a pair whose first component is the per-record name projection of the
second (so two-value destructuring succeeds exactly on the success
shape). -/
theorem claim10_sets_result_shape (fetch : Nat → Option SetsResp) (fuel : Nat)
    (r : SetsResult) (n : Nat) (h : get_all_set_names fetch fuel = (some r, n)) :
    (r = SetsResult.emptyList ↔ page1Unusable fetch) ∧
      ∀ ns ss, r = SetsResult.pair ns ss → ns = ss.map SetRec.name := by
  refine ⟨⟨?_, ?_⟩, get_all_set_names_aux_pair_names fetch fuel 1 [] 0 r n h⟩
  · intro hr
    subst hr
    cases fuel with
    | zero => simp [get_all_set_names, get_all_set_names_aux] at h
    | succ m =>
      unfold get_all_set_names at h
      simp only [get_all_set_names_aux] at h
      split at h
      · next hf =>
        intro resp hresp
        rw [hf] at hresp
        exact Option.noConfusion hresp
      · next resp0 hf =>
        split at h
        · next hd =>
          intro resp hresp
          rw [hf] at hresp
          exact (Option.some.inj hresp) ▸ hd
        · next d hd =>
          split at h
          · next he =>
            exact absurd (Option.some.inj (congrArg Prod.fst h))
              (fun hc => SetsResult.noConfusion hc)
          · next he =>
            split at h
            · next c t hc ht =>
              split at h
              · next hle =>
                exact absurd (Option.some.inj (congrArg Prod.fst h))
                  (fun hcon => SetsResult.noConfusion hcon)
              · next hnle =>
                exact absurd rfl
                  (get_all_set_names_aux_no_empty fetch m 2 ([] ++ d) (0 + 1)
                    SetsResult.emptyList n (by omega) h)
            · next x y hxy =>
              exact absurd rfl
                (get_all_set_names_aux_no_empty fetch m 2 ([] ++ d) (0 + 1)
                  SetsResult.emptyList n (by omega) h)
  · intro hun
    cases fuel with
    | zero => simp [get_all_set_names, get_all_set_names_aux] at h
    | succ m =>
      unfold get_all_set_names at h
      simp only [get_all_set_names_aux] at h
      split at h
      · next hf =>
        simp only [if_true] at h
        exact (Option.some.inj (congrArg Prod.fst h)).symm
      · next resp hf =>
        split at h
        · next hd =>
          simp only [if_true] at h
          exact (Option.some.inj (congrArg Prod.fst h)).symm
        · next d hd =>
          have hnone := hun resp hf
          rw [hd] at hnone
          exact Option.noConfusion hnone

/-- C10 witness: at an oracle whose first fetch fails, the loop result is
the empty-list shape and the page-1 condition holds. -/
theorem claim10_sets_result_shape_witness :
    (SetsResult.emptyList = SetsResult.emptyList ↔ page1Unusable failSetsFetch) ∧
      ∀ ns ss, SetsResult.emptyList = SetsResult.pair ns ss → ns = ss.map SetRec.name :=
  claim10_sets_result_shape failSetsFetch 1 SetsResult.emptyList 1 rfl
